import Mathlib

/-!
Verification development for the BOQ Matching & Estimation Engine
(server/utils/boq_logic.js and routes/boqRoutes.js).

The JavaScript source is shallowly embedded: pure helpers become Lean
functions, JavaScript numbers are modelled as rationals (ℚ), nullable
values as `Option`, thrown exceptions as `Except Unit`, and the external
Gemini advisor (reached through the rate limiter) as an oracle function
from (description, unit) to `Option ℚ`.
-/

namespace BOQ

/-! ## JavaScript string primitives -/

/-- Models JavaScript `String.prototype.toLowerCase` (per-character lowering,
which agrees with JS on the ASCII data handled by this engine). -/
def toLowerCase (s : String) : String := String.mk (s.data.map Char.toLower)

/-- Drop leading and trailing whitespace from a character list. -/
def trimChars (cs : List Char) : List Char :=
  ((cs.dropWhile Char.isWhitespace).reverse.dropWhile Char.isWhitespace).reverse

/-- Models JavaScript `String.prototype.trim`. -/
def jsTrim (s : String) : String := String.mk (trimChars s.data)

/-- Split a character list at whitespace characters, as JS
`split(/\s+/)` up to empty fragments at separator runs (the callers
filter those out by a length bound). -/
def splitWsAux : List Char → List Char → List String
  | [], acc => [String.mk acc.reverse]
  | c :: cs, acc =>
    if c.isWhitespace then String.mk acc.reverse :: splitWsAux cs []
    else splitWsAux cs (c :: acc)

/-- Split a string on whitespace. -/
def splitWs (s : String) : List String := splitWsAux s.data []

/-- Fuel-bounded global replacement of a non-overlapping pattern,
left to right (fuel is consumed one character per step, so the input
length is always enough fuel). -/
def replaceAllFuel (pat repl : List Char) : ℕ → List Char → List Char
  | 0, cs => cs
  | _, [] => []
  | fuel + 1, c :: cs =>
    if pat.isPrefixOf (c :: cs)
    then repl ++ replaceAllFuel pat repl fuel (List.drop (pat.length - 1) cs)
    else c :: replaceAllFuel pat repl fuel cs

/-- Models JavaScript `String.prototype.replace` with a global literal
pattern. -/
def replaceAll (s pat repl : String) : String :=
  String.mk (replaceAllFuel pat.data repl.data s.data.length s.data)

/-- A character matched by the regex class `\w` (`[A-Za-z0-9_]`). -/
def isWordChar (c : Char) : Bool := c.isAlphanum || c = '_'

/-- Models `.replace(/[^\w\s]/gi, '')`: delete every character that is
neither a word character nor whitespace. -/
def stripPunct (s : String) : String :=
  String.mk (s.data.filter (fun c => isWordChar c || c.isWhitespace))

/-- The STOP_WORDS set of boq_logic.js (the duplicate entry of the source
array is kept; membership is unaffected). -/
def STOP_WORDS : List String :=
  ["a", "an", "and", "the", "in", "on", "for", "with", "of", "to", "is", "are", "was", "were",
   "including", "supply", "providing", "of", "all", "complete", "work", "as", "per", "details",
   "item", "rate", "charges", "fixing", "laying"]

/-- Insert a string into a list if not already present (JS `Set` insertion,
keeping first-occurrence order). -/
def insertUniq (acc : List String) (x : String) : List String :=
  if x ∈ acc then acc else acc ++ [x]

/-- Deduplicate a list keeping first occurrences: the contents of
`new Set(list)` in iteration order. -/
def dedupFirst (l : List String) : List String := l.foldl insertUniq []

/-- The `tokenize` helper of boq_logic.js: lower-case, strip punctuation,
split on whitespace, keep words of length > 2 that are not stop words,
and collect into a set.  (JS `split(/\s+/)` collapses whitespace runs;
here splitting on single whitespace characters produces extra empty
strings which the length filter removes, so the results agree.)
The source guards `!text || typeof text !== 'string'`; the empty string
is the falsy case reachable for a `String` argument. -/
def tokenize (text : String) : List String :=
  if text = "" then []
  else dedupFirst
    ((splitWs (stripPunct (toLowerCase text))).filter
      (fun w => w.length > 2 && !(STOP_WORDS.contains w)))

/-! ## JavaScript number parsing -/

/-- Decimal digits to a natural number. -/
def digitsToNat (ds : List Char) : ℕ := ds.foldl (fun n c => 10 * n + (c.toNat - 48)) 0

/-- Models JavaScript `parseFloat` on plain decimal numerals: skip leading
whitespace, an optional sign, then the longest prefix of the form
`digits[.digits]`; `NaN` (no parsable prefix) is `none`.  Exponent
notation and `Infinity` are not covered; no input of this development
uses them. -/
def parseFloat (s : String) : Option ℚ :=
  let cs0 := s.data.dropWhile (fun c => c.isWhitespace)
  let signed : ℚ × List Char :=
    match cs0 with
    | '-' :: rest => (-1, rest)
    | '+' :: rest => (1, rest)
    | _ => (1, cs0)
  let intPart := signed.2.takeWhile Char.isDigit
  let afterInt := signed.2.drop intPart.length
  let fracPart :=
    match afterInt with
    | '.' :: rest => rest.takeWhile Char.isDigit
    | _ => []
  if intPart.isEmpty && fracPart.isEmpty then none
  else some (signed.1 * ((digitsToNat intPart : ℚ) +
    (digitsToNat fracPart : ℚ) / ((10 : ℚ) ^ fracPart.length)))

/-! ## Spreadsheet rows

`xlsx.utils.sheet_to_json(ws, { header: 1 })` yields an array of rows,
each an array of cell values; a missing cell is `undefined`.  Cells are
modelled as optional strings (`none` = absent/undefined). -/

/-- A spreadsheet row: list of optional cell contents. -/
def Row := List (Option String)

/-- JavaScript `row[k]`: `undefined` past the end. -/
def cell (row : Row) (k : ℕ) : Option String := (List.get? row k).join

/-- Models `String(x || '')` for an optional string cell. -/
def cellStr (c : Option String) : String := c.getD ""

/-- Models `parseFloat(x)` for an optional cell (`parseFloat(undefined)` is NaN). -/
def cellParseFloat (c : Option String) : Option ℚ := c.bind parseFloat

/-! ## Catalog records and the fuzzy matcher -/

/-- A row of the `rates` table as fetched by `SELECT * FROM rates`.
`unit` is kept optional to model a possible SQL NULL (accessing
`rate.unit.toLowerCase()` on it throws, which the orchestrator models as
`Except.error`); `item_name` and `rate_value` are NOT NULL numeric/text
columns and `keywords` is taken as present text (`tokenize` would treat a
null the same as the empty string). -/
structure RateRecord where
  item_name : String
  unit : Option String
  rate_value : ℚ
  keywords : String
deriving DecidableEq

/-- The per-candidate scoring loop of boq_logic.js: for each description
token, +2 if it occurs among the candidate name tokens, +1 if among the
keyword tokens. -/
def score (descT : List String) (r : RateRecord) : ℕ :=
  let rateNameTokens := tokenize r.item_name
  let keywordTokens := tokenize r.keywords
  descT.foldl
    (fun s t =>
      s + (if rateNameTokens.contains t then 2 else 0)
        + (if keywordTokens.contains t then 1 else 0)) 0

/-- The candidate-selection loop of boq_logic.js: keep the running best
match, replacing it only on a strictly greater score. -/
def bestLoop (descT : List String) :
    List RateRecord → Option RateRecord × ℕ → Option RateRecord × ℕ
  | [], acc => acc
  | r :: rs, (bestMatch, highestScore) =>
    let currentScore := score descT r
    if highestScore < currentScore then bestLoop descT rs (some r, currentScore)
    else bestLoop descT rs (bestMatch, highestScore)

/-- Models `ratesData.filter(rate => rate.unit.toLowerCase() === unit)`:
keeps the unit-matching records in order, and throws (`Except.error`)
when a record's `unit` is null. -/
def relevantRatesE (unit : String) : List RateRecord → Except Unit (List RateRecord)
  | [] => .ok []
  | r :: rs =>
    match r.unit with
    | none => .error ()
    | some u =>
      (relevantRatesE unit rs).map
        (fun rest => if toLowerCase u = unit then r :: rest else rest)

/-- The fuzzy matcher of boq_logic.js for one row: filter the catalog to
unit-matching candidates, then run the scoring loop from `(null, 0)`
when there are candidates. -/
def findBestMatch (ratesData : List RateRecord) (description unit : String) :
    Except Unit (Option RateRecord × ℕ) := do
  let relevantRates ← relevantRatesE unit ratesData
  if relevantRates.length > 0 then
    return bestLoop (tokenize description) relevantRates (none, 0)
  else
    return (none, 0)

/-! ## Priced items and the estimation orchestrator -/

/-- A processed BOQ line item as pushed onto `processedItems`. -/
structure PricedItem where
  item_no : String
  description : String
  quantity : ℚ
  unit : String
  rate : Option ℚ
  total : Option ℚ
  isAiSuggestion : Bool
  source : String
deriving DecidableEq

/-- The external advisor as seen by the orchestrator: the settled value of
`aiLimiter.add(() => getAiRateSuggestion(description, unit, key))`.
`getAiRateSuggestion` never rejects (it returns `{rate} | null`), so the
oracle is a total function of the description and unit. -/
def AdvisorOracle := String → String → Option ℚ

/-- The pricing step of the per-row loop (section C of boq_logic.js):
on a local match with positive score take the catalog rate with source
"Database"; otherwise consult the advisor; otherwise leave rate and
total null with source "Manual".  `total = rate * quantity` exactly when
`rate` is non-null. -/
def priceRow (adv : AdvisorOracle) (item_no description : String) (quantity : ℚ)
    (unit : String) : Option RateRecord × ℕ → PricedItem
  | (bestMatch, highestScore) =>
    let viaAi : PricedItem :=
      match adv description unit with
      | some r =>
        { item_no := item_no, description := description, quantity := quantity,
          unit := unit, rate := some r, total := some (r * quantity),
          isAiSuggestion := true, source := "AI Estimate" }
      | none =>
        { item_no := item_no, description := description, quantity := quantity,
          unit := unit, rate := none, total := none,
          isAiSuggestion := false, source := "Manual" }
    match bestMatch with
    | some b =>
      if 0 < highestScore then
        { item_no := item_no, description := description, quantity := quantity,
          unit := unit, rate := some b.rate_value,
          total := some (b.rate_value * quantity),
          isAiSuggestion := false, source := "Database" }
      else viaAi
    | none => viaAi

/-- One iteration of the row loop of `parseAndMatchBOQ`: extract and coerce
the four cells, drop the row (`continue`) unless the description is
non-empty, the quantity parses, and the unit is non-empty; then match
and price.  Errors of the matcher (null catalog unit) propagate. -/
def processRow (ratesData : List RateRecord) (adv : AdvisorOracle) (row : Row) :
    Except Unit (Option PricedItem) :=
  let item_no := jsTrim (cellStr (cell row 0))
  let description := jsTrim (cellStr (cell row 1))
  let quantityP := cellParseFloat (cell row 2)
  let unit := toLowerCase (jsTrim (cellStr (cell row 3)))
  match quantityP with
  | none => .ok none
  | some quantity =>
    if description = "" ∨ unit = "" then .ok none
    else
      (findBestMatch ratesData description unit).map
        (fun res => some (priceRow adv item_no description quantity unit res))

/-- The row loop of `parseAndMatchBOQ`: accumulate processed items in order
and add each non-null line total to the running project total. -/
def boqLoop (ratesData : List RateRecord) (adv : AdvisorOracle) :
    List Row → List PricedItem × ℚ → Except Unit (List PricedItem × ℚ)
  | [], acc => .ok acc
  | row :: rows, acc => do
    let it ← processRow ratesData adv row
    match it with
    | none => boqLoop ratesData adv rows acc
    | some item =>
      boqLoop ratesData adv rows (acc.1 ++ [item], acc.2 + item.total.getD 0)

/-- The core `parseAndMatchBOQ` of boq_logic.js.  The workbook argument is
the outcome of `xlsx.read` + `sheet_to_json`: either a thrown parse
error or the list of rows (`.slice(1)` skips the header row).  The
surrounding `try/catch` turns any thrown error — at parse time or
mid-loop — into `{ processedItems: [], projectTotal: 0 }`. -/
def parseAndMatchBOQ (wb : Except Unit (List Row)) (ratesData : List RateRecord)
    (adv : AdvisorOracle) : List PricedItem × ℚ :=
  match (do
    let boqData ← wb
    boqLoop ratesData adv (boqData.drop 1) ([], 0) : Except Unit (List PricedItem × ℚ)) with
  | .ok r => r
  | .error _ => ([], 0)

/-- Body of the `try` block of `parseAndMatchBOQ`: the run up to (but not
including) the surrounding `catch`, so a thrown exception is still
visible as `Except.error`. -/
def boqRun (wb : Except Unit (List Row)) (ratesData : List RateRecord)
    (adv : AdvisorOracle) : Except Unit (List PricedItem × ℚ) := do
  let boqData ← wb
  boqLoop ratesData adv (boqData.drop 1) ([], 0)

/-! ## The rate limiter

`RateLimiter` keeps a FIFO array of pending tasks; `process()` shifts the
head, awaits it, resolves or rejects that task's promise, and only after
`minDelayMs` (via `setTimeout` in the `finally` block) clears the busy
flag and processes the next task.  Under the single-threaded event loop
this yields the discrete-event schedule below for a sequence of enqueued
tasks: each task starts, settles after its own duration with its own
outcome, and the next task starts exactly one cooldown after the
previous settle. -/

/-- A task handed to `RateLimiter.add`, abstracted by how long it runs and
whether its promise resolves (`ok = true`) or rejects. -/
structure QueuedTask where
  dur : ℕ
  ok : Bool
deriving DecidableEq

/-- An execution record: (start time, settle time, resolved?). -/
abbrev ExecRecord := ℕ × ℕ × Bool

/-- The schedule produced by the rate-limiter event loop from time `now`:
FIFO order, each task settling `dur` later, the next starting
`minDelayMs` after the settle. -/
def runQueue (minDelayMs : ℕ) : ℕ → List QueuedTask → List ExecRecord
  | _, [] => []
  | now, t :: ts => (now, now + t.dur, t.ok) :: runQueue minDelayMs (now + t.dur + minDelayMs) ts

/-- The cooldown of the shared limiter instance: `new RateLimiter(4500)`. -/
def aiLimiterDelayMs : ℕ := 4500

/-- Closed form of the i-th start time of the schedule: the base time plus
the durations and cooldowns of all earlier tasks. -/
def schedStart (minDelayMs now : ℕ) (ts : List QueuedTask) (i : ℕ) : ℕ :=
  now + ((ts.take i).map (fun t => t.dur + minDelayMs)).sum

/-! ## The external rate advisor adapter -/

/-- A JSON value, as produced by `JSON.parse`. -/
inductive Json where
  | null : Json
  | bool (b : Bool) : Json
  | num (q : ℚ) : Json
  | str (s : String) : Json
  | arr (xs : List Json) : Json
  | obj (fields : List (String × Json)) : Json

/-- Models `parsed && typeof parsed.rate === 'number'` followed by reading
`parsed.rate`: only a (truthy) object with a numeric `rate` field
yields a rate. -/
def jsGetRate : Json → Option ℚ
  | .obj fields =>
    match fields.lookup "rate" with
    | some (.num q) => some q
    | _ => none
  | _ => none

/-- Models `rawText.replace(/```json/g, '').replace(/```/g, '').trim()`. -/
def cleanFence (raw : String) : String :=
  jsTrim (replaceAll (replaceAll raw "```json" "") "```" "")

/-- Outcome of the `axios.post` round trip: the request threw (network or
HTTP error), or a response whose
`data?.candidates?.[0]?.content?.parts?.[0]?.text` is the given
optional string. -/
inductive NetOutcome where
  | failure : NetOutcome
  | success (rawText : Option String) : NetOutcome
deriving DecidableEq

/-- The `getAiRateSuggestion` adapter of boq_logic.js, parameterised by the
platform `JSON.parse` (returning `none` where it would throw).  The
returned pair is (a network call was issued, the suggestion).  The
function is total: no failure escapes the adapter. -/
def getAiRateSuggestion (parseJson : String → Option Json)
    (geminiApiKey : Option String) (net : NetOutcome) : Bool × Option ℚ :=
  match geminiApiKey with
  | none => (false, none)
  | some key =>
    if key = "" then (false, none)
    else
      (true,
        match net with
        | .failure => none
        | .success none => none
        | .success (some rawText) =>
          match parseJson (cleanFence rawText) with
          | none => none
          | some parsed => jsGetRate parsed)

/-! ## The upload-boq persistence step (routes/boqRoutes.js) -/

/-- A row of the `boq_items` table as inserted by the upload handler:
`INSERT INTO boq_items (description, quantity, unit, rate, total)`.
There is no provenance column (`isAiSuggestion` is not persisted). -/
structure StoredItem where
  description : String
  quantity : ℚ
  unit : String
  rate : Option ℚ
  total : Option ℚ
deriving DecidableEq

/-- The database state visible to the route: the `rates` catalog, the
`boq_items` store, and (for the frame property) everything else. -/
structure Db (α : Type) where
  rates : List RateRecord
  boq_items : List StoredItem
  other : α

/-- Projection of a processed item onto the persisted columns. -/
def toStored (it : PricedItem) : StoredItem :=
  ⟨it.description, it.quantity, it.unit, it.rate, it.total⟩

/-- The response sent by the upload-boq handler: `res.json({processedItems,
projectTotal})` on commit, or the 500 error path after rollback. -/
inductive UploadResponse where
  | ok (processedItems : List PricedItem) (projectTotal : ℚ) : UploadResponse
  | serverError : UploadResponse
deriving DecidableEq

/-- The insert loop of the upload handler, run against the in-transaction
working copy of `boq_items` (initially truncated to `[]`): items are
appended in spreadsheet order; `insertFails k` models the k-th
`client.query(insertQuery, ...)` throwing (constraint violation,
connection loss, ...). -/
def runInserts (insertFails : ℕ → Bool) :
    ℕ → List PricedItem → List StoredItem → Except Unit (List StoredItem)
  | _, [], st => .ok st
  | k, it :: its, st =>
    if insertFails k then .error ()
    else runInserts insertFails (k + 1) its (st ++ [toStored it])

/-- The POST /upload-boq handler of boqRoutes.js, from `SELECT * FROM
rates` on: price the workbook in memory, then in one transaction
truncate `boq_items` and insert the batch; COMMIT publishes the working
copy, any insert failure ROLLBACKs to the pre-transaction state and
answers with the 500 error path. -/
def uploadBoq {α : Type} (db : Db α) (wb : Except Unit (List Row))
    (adv : AdvisorOracle) (insertFails : ℕ → Bool) : Db α × UploadResponse :=
  let ratesData := db.rates
  let res := parseAndMatchBOQ wb ratesData adv
  let processedItems := res.1
  let projectTotal := res.2
  let working : List StoredItem := []
  match (if processedItems.length > 0
         then runInserts insertFails 0 processedItems working
         else .ok working) with
  | .ok w => ({ db with boq_items := w }, .ok processedItems projectTotal)
  | .error _ => (db, .serverError)

/-! ## Spec-side definitions

These follow the wording of the specification (not the code) and are
used to state refinement/characterisation theorems against the
definitions above. -/

/-- Score of a candidate as the spec words it: 2 times the number of
description tokens shared with the candidate name tokens plus 1 times
the number shared with the keyword tokens. -/
def specScore (descT : List String) (r : RateRecord) : ℕ :=
  2 * descT.countP (fun t => (tokenize r.item_name).contains t)
    + descT.countP (fun t => (tokenize r.keywords).contains t)

/-- Maximum of the source scores over a candidate list (0 when empty). -/
def listMax (descT : List String) (cands : List RateRecord) : ℕ :=
  (cands.map (score descT)).foldr max 0

/-- The matcher as the spec words it: candidates are exactly the catalog
entries whose unit equals the row unit case-insensitively; the winner is
the first-encountered candidate attaining the highest score, provided
that score is positive; otherwise no match. -/
def matcherSpec (ratesData : List RateRecord) (description unit : String) :
    Option (RateRecord × ℕ) :=
  let descT := tokenize description
  let cands := ratesData.filter (fun r => (r.unit.map toLowerCase) = some unit)
  let m := (cands.map (specScore descT)).foldr max 0
  if m = 0 then none
  else (cands.find? (fun r => specScore descT r = m)).map (fun r => (r, m))

/-- Conversion from the spec-side match result to the loop's
(bestMatch, highestScore) pair. -/
def specToPair : Option (RateRecord × ℕ) → Option RateRecord × ℕ
  | none => (none, 0)
  | some (r, s) => (some r, s)

/-- Validity of a data row per the parse step: non-empty trimmed
description, parseable quantity, non-empty unit. -/
def rowValid (row : Row) : Bool :=
  !(jsTrim (cellStr (cell row 1)) = "")
    && (cellParseFloat (cell row 2)).isSome
    && !(toLowerCase (jsTrim (cellStr (cell row 3))) = "")

/-- Sum of the non-null line totals of an item list (null contributes 0). -/
def sumTotals (items : List PricedItem) : ℚ :=
  (items.map (fun it => it.total.getD 0)).sum

/-- The project-total contribution of one row: the priced line total when
the row is valid and priced, 0 otherwise. -/
def rowTotal (ratesData : List RateRecord) (adv : AdvisorOracle) (row : Row) : ℚ :=
  match processRow ratesData adv row with
  | .ok (some it) => it.total.getD 0
  | _ => 0

/-- The item a valid row yields (a placeholder item for dropped or
throwing rows; used only under a validity hypothesis). -/
def itemOfRow (ratesData : List RateRecord) (adv : AdvisorOracle) (row : Row) : PricedItem :=
  match processRow ratesData adv row with
  | .ok (some it) => it
  | _ => ⟨"", "", 0, "", none, none, false, "Manual"⟩

/-! ## Lemmas about the fuzzy matcher -/

/-- The per-token scoring fold equals the spec formula
2·(shared name tokens) + 1·(shared keyword tokens). -/
theorem score_eq_specScore (descT : List String) (r : RateRecord) :
    score descT r = specScore descT r := by
  unfold score specScore
  suffices h : ∀ (l : List String) (n : ℕ),
      l.foldl (fun s t =>
        s + (if (tokenize r.item_name).contains t then 2 else 0)
          + (if (tokenize r.keywords).contains t then 1 else 0)) n
        = n + 2 * l.countP (fun t => (tokenize r.item_name).contains t)
            + l.countP (fun t => (tokenize r.keywords).contains t) by
    simpa using h descT 0
  intro l
  induction l with
  | nil => intro n; simp
  | cons t ts ih =>
    intro n
    simp only [List.foldl_cons, List.countP_cons, ih]
    by_cases h1 : t ∈ tokenize r.item_name <;>
      by_cases h2 : t ∈ tokenize r.keywords <;>
        simp [h1, h2] <;> omega

/-- The max score over a candidate list prefixed by one candidate. -/
theorem listMax_cons (descT : List String) (r : RateRecord) (rs : List RateRecord) :
    listMax descT (r :: rs) = max (score descT r) (listMax descT rs) := by
  simp [listMax]

/-- The strict-improvement loop of the matcher keeps the accumulator when
no candidate beats it, and otherwise returns the first candidate
attaining the maximal score together with that score. -/
theorem bestLoop_eq (descT : List String) (cands : List RateRecord) :
    ∀ (best : Option RateRecord) (hi : ℕ),
      bestLoop descT cands (best, hi) =
        if listMax descT cands ≤ hi then (best, hi)
        else (cands.find? (fun r => score descT r = listMax descT cands),
              listMax descT cands) := by
  induction cands with
  | nil =>
    intro best hi
    simp [bestLoop, listMax]
  | cons r rs ih =>
    intro best hi
    rw [listMax_cons]
    by_cases hlt : hi < score descT r
    · have hL : bestLoop descT (r :: rs) (best, hi)
          = bestLoop descT rs (some r, score descT r) := by
        simp [bestLoop, hlt]
      rw [hL, ih]
      by_cases hMs : listMax descT rs ≤ score descT r
      · have hmax : max (score descT r) (listMax descT rs) = score descT r := by omega
        rw [hmax]
        have hcond : ¬ (score descT r ≤ hi) := by omega
        rw [if_pos hMs, if_neg hcond]
        have hfind : (r :: rs).find? (fun x => score descT x = score descT r) = some r := by
          apply List.find?_cons_of_pos
          simp
        rw [hfind]
      · have hlt2 : score descT r < listMax descT rs := by omega
        have hmax : max (score descT r) (listMax descT rs) = listMax descT rs := by omega
        rw [hmax]
        have hcond1 : ¬ (listMax descT rs ≤ score descT r) := by omega
        have hcond2 : ¬ (listMax descT rs ≤ hi) := by omega
        rw [if_neg hcond1, if_neg hcond2]
        have hfind : (r :: rs).find? (fun x => score descT x = listMax descT rs)
            = rs.find? (fun x => score descT x = listMax descT rs) := by
          apply List.find?_cons_of_neg
          simp
          omega
        rw [hfind]
    · have hL : bestLoop descT (r :: rs) (best, hi)
          = bestLoop descT rs (best, hi) := by
        simp [bestLoop, hlt]
      rw [hL, ih]
      by_cases hMhi : listMax descT rs ≤ hi
      · have hcond : max (score descT r) (listMax descT rs) ≤ hi := by omega
        rw [if_pos hMhi, if_pos hcond]
      · have hlt2 : hi < listMax descT rs := by omega
        have hmax : max (score descT r) (listMax descT rs) = listMax descT rs := by omega
        rw [hmax]
        rw [if_neg hMhi, if_neg hMhi]
        have hfind : (r :: rs).find? (fun x => score descT x = listMax descT rs)
            = rs.find? (fun x => score descT x = listMax descT rs) := by
          apply List.find?_cons_of_neg
          simp
          omega
        rw [hfind]

/-- On a catalog without null units, the unit filter returns (without
throwing) exactly the case-insensitively unit-matching records. -/
theorem relevantRatesE_eq (unit : String) (rs : List RateRecord)
    (h : ∀ r ∈ rs, r.unit.isSome) :
    relevantRatesE unit rs
      = .ok (rs.filter (fun r => (r.unit.map toLowerCase) = some unit)) := by
  induction rs with
  | nil => simp [relevantRatesE]
  | cons r rs ih =>
    have hr : r.unit.isSome := h r (List.mem_cons_self r rs)
    obtain ⟨u, hu⟩ := Option.isSome_iff_exists.mp hr
    have ih2 := ih (fun x hx => h x (List.mem_cons_of_mem r hx))
    rw [List.filter_cons]
    simp only [relevantRatesE, hu, ih2, Except.map]
    by_cases hcase : toLowerCase u = unit
    · simp [hu, hcase]
    · simp [hu, hcase]

/-- A nonzero fold-max of a list of naturals is attained by some element. -/
theorem foldr_max_attained (l : List ℕ) : l.foldr max 0 = 0 ∨ l.foldr max 0 ∈ l := by
  induction l with
  | nil => left; rfl
  | cons x xs ih =>
    rcases Nat.le_total x (xs.foldr max 0) with hle | hge
    · rcases ih with h0 | hmem
      · left; simp [List.foldr_cons, h0]; omega
      · right
        have : max x (xs.foldr max 0) = xs.foldr max 0 := by omega
        simp only [List.foldr_cons, this]
        exact List.mem_cons_of_mem x hmem
    · right
      have : max x (xs.foldr max 0) = x := by omega
      simp only [List.foldr_cons, this]
      exact List.mem_cons_self x xs

/-- The maximal source score over the candidates equals the maximal spec
score. -/
theorem listMax_eq_spec (descT : List String) (cands : List RateRecord) :
    listMax descT cands = (cands.map (specScore descT)).foldr max 0 := by
  unfold listMax
  congr 1
  exact List.map_congr_left (fun r _ => score_eq_specScore descT r)

/-- C3: for every row and catalog (with non-null units), the fuzzy matcher
considers as candidates exactly the catalog entries whose unit equals
the row unit case-insensitively; each candidate scores 2 per
description token shared with its name tokens plus 1 per token shared
with its keyword tokens; the strictly highest positive score wins with
ties keeping the first candidate in catalog order; a highest score of 0
or an empty candidate set is no match.  Stated as a refinement: the
source matcher equals the spec-worded matcher `matcherSpec`; both are
pure functions, so the result is deterministic for a fixed catalog and
description. -/
theorem C3_matcher_refines_spec (ratesData : List RateRecord)
    (description unit : String)
    (h : ∀ r ∈ ratesData, r.unit.isSome) :
    findBestMatch ratesData description unit
      = .ok (specToPair (matcherSpec ratesData description unit)) := by
  unfold findBestMatch matcherSpec
  rw [relevantRatesE_eq unit ratesData h]
  simp only [Except.instMonad, Except.bind, Except.map, Except.pure, Bind.bind, Pure.pure]
  set descT := tokenize description with hdescT
  set cands := ratesData.filter (fun r => (r.unit.map toLowerCase) = some unit) with hcands
  have hm : (cands.map (specScore descT)).foldr max 0 = listMax descT cands :=
    (listMax_eq_spec descT cands).symm
  rw [hm]
  set M := listMax descT cands with hM
  by_cases hnil : cands = []
  · have hM0 : M = 0 := by rw [hM, hnil]; simp [listMax]
    rw [hnil]
    simp [hM0, specToPair]
  · have hlen : 0 < cands.length := List.length_pos.mpr hnil
    rw [if_pos hlen, bestLoop_eq]
    by_cases hM0 : M = 0
    · rw [if_pos (by omega), if_pos hM0]
      rfl
    · rw [if_neg (by omega), if_neg hM0]
      have hpred : (fun r => decide (specScore descT r = M))
          = (fun r => decide (score descT r = M)) := by
        funext r
        rw [score_eq_specScore]
      rw [hpred]
      have hattained : M ∈ cands.map (score descT) := by
        rcases foldr_max_attained (cands.map (score descT)) with h0 | hmem
        · exact absurd (by rw [hM, listMax]; exact h0) hM0
        · rw [hM, listMax]; exact hmem
      obtain ⟨r0, hr0mem, hr0⟩ := List.mem_map.mp hattained
      have hsome : (cands.find? (fun r => decide (score descT r = M))).isSome := by
        rw [List.find?_isSome]
        exact ⟨r0, hr0mem, by simp [hr0]⟩
      obtain ⟨rw0, hrw0⟩ := Option.isSome_iff_exists.mp hsome
      rw [hrw0]
      simp [specToPair]

/-- Concrete instantiation of `C3_matcher_refines_spec` (Scenario A
catalog entry). -/
theorem C3_witness :
    (∀ r ∈ ([⟨"Brickwork", some "m2", (91:ℚ)/2, "brick wall masonry"⟩] : List RateRecord),
      r.unit.isSome)
    ∧ findBestMatch [⟨"Brickwork", some "m2", (91:ℚ)/2, "brick wall masonry"⟩]
        "Brick Masonry Walls" "m2"
      = .ok (specToPair (matcherSpec [⟨"Brickwork", some "m2", (91:ℚ)/2, "brick wall masonry"⟩]
          "Brick Masonry Walls" "m2")) :=
  ⟨by simp, C3_matcher_refines_spec _ _ _ (by simp)⟩

/-! ## Lemmas about the orchestrator loop -/

/-- The row loop from any accumulator is the row loop from the empty
accumulator with items prepended and totals shifted. -/
theorem boqLoop_append (ratesData : List RateRecord) (adv : AdvisorOracle) :
    ∀ (rows : List Row) (items : List PricedItem) (t : ℚ),
      boqLoop ratesData adv rows (items, t)
        = (boqLoop ratesData adv rows ([], 0)).map (fun p => (items ++ p.1, t + p.2)) := by
  intro rows
  induction rows with
  | nil =>
    intro items t
    simp [boqLoop, Except.map]
  | cons row rows ih =>
    intro items t
    cases hpr : processRow ratesData adv row with
    | error e =>
      simp [boqLoop, hpr, Except.map, Bind.bind, Except.bind]
    | ok it =>
      cases it with
      | none =>
        simp only [boqLoop, hpr, Bind.bind, Except.bind]
        exact ih items t
      | some item =>
        simp only [boqLoop, hpr, Bind.bind, Except.bind, List.nil_append]
        rw [ih (items ++ [item]) (t + item.total.getD 0),
            ih [item] (0 + item.total.getD 0)]
        cases hbase : boqLoop ratesData adv rows ([], 0) with
        | error e => simp [Except.map]
        | ok p => simp [Except.map, add_assoc]

/-- A successful run of the row loop from the empty accumulator returns a
project total equal to the sum of the non-null line totals. -/
theorem boqLoop_sum (ratesData : List RateRecord) (adv : AdvisorOracle) :
    ∀ (rows : List Row) (items : List PricedItem) (t : ℚ),
      boqLoop ratesData adv rows ([], 0) = .ok (items, t) → t = sumTotals items := by
  intro rows
  induction rows with
  | nil =>
    intro items t h
    simp [boqLoop] at h
    rcases h with ⟨h1, h2⟩
    subst h1
    rw [← h2]
    simp [sumTotals]
  | cons row rows ih =>
    intro items t h
    cases hpr : processRow ratesData adv row with
    | error e => simp [boqLoop, hpr, Bind.bind, Except.bind] at h
    | ok it =>
      cases it with
      | none =>
        simp only [boqLoop, hpr, Bind.bind, Except.bind] at h
        exact ih items t h
      | some item =>
        simp only [boqLoop, hpr, Bind.bind, Except.bind] at h
        rw [boqLoop_append] at h
        cases hbase : boqLoop ratesData adv rows ([], 0) with
        | error e => rw [hbase] at h; simp [Except.map] at h
        | ok p =>
          rw [hbase] at h
          simp [Except.map] at h
          obtain ⟨hitems, ht⟩ := h
          have hp := ih p.1 p.2 (by rw [hbase])
          rw [← hitems, ← ht, hp]
          simp [sumTotals, add_assoc]

/-- The row loop throws exactly when some row of the batch makes
`processRow` throw. -/
theorem boqLoop_error_iff (ratesData : List RateRecord) (adv : AdvisorOracle) :
    ∀ (rows : List Row) (items : List PricedItem) (t : ℚ),
      boqLoop ratesData adv rows (items, t) = .error ()
        ↔ ∃ row ∈ rows, processRow ratesData adv row = .error () := by
  intro rows
  induction rows with
  | nil =>
    intro items t
    simp [boqLoop]
  | cons row rows ih =>
    intro items t
    cases hpr : processRow ratesData adv row with
    | error e =>
      simp [boqLoop, hpr, Bind.bind, Except.bind]
    | ok it =>
      cases it with
      | none =>
        simp only [boqLoop, hpr, Bind.bind, Except.bind]
        rw [ih items t]
        simp [hpr]
      | some item =>
        simp only [boqLoop, hpr, Bind.bind, Except.bind]
        rw [ih (items ++ [item]) (t + item.total.getD 0)]
        simp [hpr]

/-- When no row of the batch throws, the loop succeeds and the final total
is the starting total plus the per-row contributions. -/
theorem boqLoop_noerr_total (ratesData : List RateRecord) (adv : AdvisorOracle) :
    ∀ (rows : List Row) (items : List PricedItem) (t : ℚ),
      (∀ row ∈ rows, ¬ processRow ratesData adv row = .error ()) →
      ∃ items2, boqLoop ratesData adv rows (items, t)
        = .ok (items2, t + (rows.map (rowTotal ratesData adv)).sum) := by
  intro rows
  induction rows with
  | nil =>
    intro items t _
    exact ⟨items, by simp [boqLoop]⟩
  | cons row rows ih =>
    intro items t hok
    cases hpr : processRow ratesData adv row with
    | error e =>
      exact absurd hpr (by simpa using hok row (List.mem_cons_self row rows))
    | ok it =>
      have hrest : ∀ r ∈ rows, ¬ processRow ratesData adv r = .error () :=
        fun r hr => hok r (List.mem_cons_of_mem row hr)
      cases it with
      | none =>
        have hrt : rowTotal ratesData adv row = 0 := by simp [rowTotal, hpr]
        obtain ⟨items2, h2⟩ := ih items t hrest
        refine ⟨items2, ?_⟩
        simp only [boqLoop, hpr, Bind.bind, Except.bind]
        rw [h2]
        simp [hrt]
      | some item =>
        have hrt : rowTotal ratesData adv row = item.total.getD 0 := by
          simp [rowTotal, hpr]
        obtain ⟨items2, h2⟩ := ih (items ++ [item]) (t + item.total.getD 0) hrest
        refine ⟨items2, ?_⟩
        simp only [boqLoop, hpr, Bind.bind, Except.bind]
        rw [h2]
        simp [hrt, add_assoc]

/-- Unfolding of `parseAndMatchBOQ` on a readable workbook. -/
theorem parseAndMatchBOQ_ok (l : List Row) (ratesData : List RateRecord)
    (adv : AdvisorOracle) :
    parseAndMatchBOQ (.ok l) ratesData adv
      = (match boqLoop ratesData adv (l.drop 1) ([], 0) with
         | .ok r => r
         | .error _ => ([], 0)) := by
  simp [parseAndMatchBOQ, Bind.bind, Except.bind]

/-- Unfolding of `parseAndMatchBOQ` on an unreadable workbook. -/
theorem parseAndMatchBOQ_error (e : Unit) (ratesData : List RateRecord)
    (adv : AdvisorOracle) :
    parseAndMatchBOQ (.error e) ratesData adv = ([], 0) := rfl

/-- The returned project total always equals the sum of the non-null line
totals of the returned items. -/
theorem parse_total_eq_sum (wb : Except Unit (List Row))
    (ratesData : List RateRecord) (adv : AdvisorOracle) :
    (parseAndMatchBOQ wb ratesData adv).2
      = sumTotals (parseAndMatchBOQ wb ratesData adv).1 := by
  cases wb with
  | error e => simp [parseAndMatchBOQ_error, sumTotals]
  | ok l =>
    rw [parseAndMatchBOQ_ok]
    cases hloop : boqLoop ratesData adv (l.drop 1) ([], 0) with
    | error e => simp [sumTotals]
    | ok p =>
      have := boqLoop_sum ratesData adv (l.drop 1) p.1 p.2 (by rw [hloop])
      simpa using this

/-- C1: for every uploaded workbook, catalog, and advisor outcome, the
returned `projectTotal` equals the sum of the non-null totals of the
emitted items (null contributing 0), and that sum is unchanged under
any reordering of the data rows of the sheet. -/
theorem C1_projectTotal_invariant (wb : Except Unit (List Row))
    (ratesData : List RateRecord) (adv : AdvisorOracle) (hdr : Row)
    (rows1 rows2 : List Row) (hperm : rows1.Perm rows2) :
    (parseAndMatchBOQ wb ratesData adv).2
        = sumTotals (parseAndMatchBOQ wb ratesData adv).1
    ∧ (parseAndMatchBOQ (.ok (hdr :: rows1)) ratesData adv).2
        = (parseAndMatchBOQ (.ok (hdr :: rows2)) ratesData adv).2 := by
  constructor
  · exact parse_total_eq_sum wb ratesData adv
  · rw [parseAndMatchBOQ_ok, parseAndMatchBOQ_ok]
    have hdrop1 : (hdr :: rows1).drop 1 = rows1 := rfl
    have hdrop2 : (hdr :: rows2).drop 1 = rows2 := rfl
    rw [hdrop1, hdrop2]
    by_cases herr : ∃ row ∈ rows1, processRow ratesData adv row = .error ()
    · have herr2 : ∃ row ∈ rows2, processRow ratesData adv row = .error () := by
        obtain ⟨row, hmem, hrow⟩ := herr
        exact ⟨row, hperm.mem_iff.mp hmem, hrow⟩
      have h1 := (boqLoop_error_iff ratesData adv rows1 [] 0).mpr herr
      have h2 := (boqLoop_error_iff ratesData adv rows2 [] 0).mpr herr2
      rw [h1, h2]
    · have herr2 : ¬ ∃ row ∈ rows2, processRow ratesData adv row = .error () := by
        intro hcon
        obtain ⟨row, hmem, hrow⟩ := hcon
        exact herr ⟨row, hperm.mem_iff.mpr hmem, hrow⟩
      obtain ⟨items1, h1⟩ := boqLoop_noerr_total ratesData adv rows1 [] 0
        (fun row hr hcon => herr ⟨row, hr, hcon⟩)
      obtain ⟨items2, h2⟩ := boqLoop_noerr_total ratesData adv rows2 [] 0
        (fun row hr hcon => herr2 ⟨row, hr, hcon⟩)
      rw [h1, h2]
      have hsum : (rows1.map (rowTotal ratesData adv)).sum
          = (rows2.map (rowTotal ratesData adv)).sum :=
        (hperm.map (rowTotal ratesData adv)).sum_eq
      simp [hsum]

/-- Concrete instantiation of `C1_projectTotal_invariant`: two one-cell
rows swapped. -/
theorem C1_witness :
    (List.Perm [[some "1"], [some "2"]] [[some "2"], [some "1"]])
    ∧ ((parseAndMatchBOQ (.ok [[], [some "1"], [some "2"]]) [] (fun _ _ => none)).2
          = sumTotals (parseAndMatchBOQ (.ok [[], [some "1"], [some "2"]]) [] (fun _ _ => none)).1
        ∧ (parseAndMatchBOQ (.ok ([] :: [[some "1"], [some "2"]])) [] (fun _ _ => none)).2
          = (parseAndMatchBOQ (.ok ([] :: [[some "2"], [some "1"]])) [] (fun _ _ => none)).2) :=
  ⟨List.Perm.swap _ _ [],
   C1_projectTotal_invariant (.ok [[], [some "1"], [some "2"]]) [] (fun _ _ => none)
     [] [[some "1"], [some "2"]] [[some "2"], [some "1"]] (List.Perm.swap _ _ [])⟩

/-! ## Per-item provenance lemmas -/

/-- Every item of a successful loop run that is not in the starting
accumulator comes from processing some row of the batch. -/
theorem boqLoop_mem (ratesData : List RateRecord) (adv : AdvisorOracle) :
    ∀ (rows : List Row) (items : List PricedItem) (t : ℚ)
      (items2 : List PricedItem) (t2 : ℚ),
      boqLoop ratesData adv rows (items, t) = .ok (items2, t2) →
      ∀ it ∈ items2, it ∈ items ∨ ∃ row ∈ rows, processRow ratesData adv row = .ok (some it) := by
  intro rows
  induction rows with
  | nil =>
    intro items t items2 t2 h it hit
    simp [boqLoop] at h
    rw [← h.1] at hit
    exact Or.inl hit
  | cons row rows ih =>
    intro items t items2 t2 h it hit
    cases hpr : processRow ratesData adv row with
    | error e => simp [boqLoop, hpr, Bind.bind, Except.bind] at h
    | ok o =>
      cases o with
      | none =>
        simp only [boqLoop, hpr, Bind.bind, Except.bind] at h
        rcases ih items t items2 t2 h it hit with hin | ⟨r, hr, hpr2⟩
        · exact Or.inl hin
        · exact Or.inr ⟨r, List.mem_cons_of_mem row hr, hpr2⟩
      | some item =>
        simp only [boqLoop, hpr, Bind.bind, Except.bind] at h
        rcases ih (items ++ [item]) (t + item.total.getD 0) items2 t2 h it hit with hin | ⟨r, hr, hpr2⟩
        · rcases List.mem_append.mp hin with hin2 | hin2
          · exact Or.inl hin2
          · have : it = item := by simpa using hin2
            subst this
            exact Or.inr ⟨row, List.mem_cons_self row rows, hpr⟩
        · exact Or.inr ⟨r, List.mem_cons_of_mem row hr, hpr2⟩

/-- Every emitted item of a run comes from processing some row. -/
theorem parseAndMatchBOQ_mem (wb : Except Unit (List Row)) (ratesData : List RateRecord)
    (adv : AdvisorOracle) (it : PricedItem)
    (hit : it ∈ (parseAndMatchBOQ wb ratesData adv).1) :
    ∃ row, processRow ratesData adv row = .ok (some it) := by
  cases wb with
  | error e => simp [parseAndMatchBOQ_error] at hit
  | ok l =>
    rw [parseAndMatchBOQ_ok] at hit
    cases hloop : boqLoop ratesData adv (l.drop 1) ([], 0) with
    | error e => rw [hloop] at hit; simp at hit
    | ok p =>
      rw [hloop] at hit
      rcases boqLoop_mem ratesData adv (l.drop 1) [] 0 p.1 p.2 (by rw [hloop]) it hit with
        hin | ⟨row, _, hpr⟩
      · simp at hin
      · exact ⟨row, hpr⟩

/-- Inversion of `processRow` on a produced item: the row was valid, the
matcher ran on the trimmed description and normalised unit, and the item
is the result of the pricing step. -/
theorem processRow_ok_some (ratesData : List RateRecord) (adv : AdvisorOracle)
    (row : Row) (it : PricedItem)
    (h : processRow ratesData adv row = .ok (some it)) :
    ∃ q res,
      cellParseFloat (cell row 2) = some q
      ∧ findBestMatch ratesData (jsTrim (cellStr (cell row 1)))
          (toLowerCase (jsTrim (cellStr (cell row 3)))) = .ok res
      ∧ it = priceRow adv (jsTrim (cellStr (cell row 0))) (jsTrim (cellStr (cell row 1)))
          q (toLowerCase (jsTrim (cellStr (cell row 3)))) res := by
  unfold processRow at h
  cases hq : cellParseFloat (cell row 2) with
  | none => rw [hq] at h; simp at h
  | some q =>
    rw [hq] at h
    dsimp only at h
    by_cases hval : jsTrim (cellStr (cell row 1)) = "" ∨ toLowerCase (jsTrim (cellStr (cell row 3))) = ""
    · rw [if_pos hval] at h; simp at h
    · rw [if_neg hval] at h
      cases hfb : findBestMatch ratesData (jsTrim (cellStr (cell row 1)))
          (toLowerCase (jsTrim (cellStr (cell row 3)))) with
      | error e => rw [hfb] at h; simp [Except.map] at h
      | ok res =>
        rw [hfb] at h
        simp [Except.map] at h
        exact ⟨q, res, rfl, rfl, h.symm⟩

/-- The pricing step copies the description and unit it was given into the
produced item. -/
theorem priceRow_fields (adv : AdvisorOracle) (ino d : String) (q : ℚ) (u : String)
    (res : Option RateRecord × ℕ) :
    (priceRow adv ino d q u res).description = d ∧ (priceRow adv ino d q u res).unit = u := by
  obtain ⟨bm, hi⟩ := res
  cases bm with
  | none => cases hadv : adv d u <;> simp [priceRow, hadv]
  | some b =>
    by_cases hpos : 0 < hi
    · simp [priceRow, hpos]
    · cases hadv : adv d u <;> simp [priceRow, hpos, hadv]

/-- The matcher result is either "no match with score 0" or a match with a
strictly positive score. -/
theorem findBestMatch_cases (ratesData : List RateRecord) (d u : String)
    (bm : Option RateRecord) (hi : ℕ)
    (h : findBestMatch ratesData d u = .ok (bm, hi)) :
    (bm = none ∧ hi = 0) ∨ (∃ b, bm = some b ∧ 0 < hi) := by
  unfold findBestMatch at h
  cases hrel : relevantRatesE u ratesData with
  | error e => rw [hrel] at h; simp [Bind.bind, Except.bind] at h
  | ok rel =>
    rw [hrel] at h
    simp only [Bind.bind, Except.bind] at h
    by_cases hlen : rel.length > 0
    · rw [if_pos hlen] at h
      rw [bestLoop_eq] at h
      by_cases hM : listMax (tokenize d) rel ≤ 0
      · rw [if_pos hM] at h
        simp [Pure.pure, Except.pure] at h
        exact Or.inl ⟨h.1.symm, by omega⟩
      · rw [if_neg hM] at h
        simp [Pure.pure, Except.pure] at h
        have hattained : listMax (tokenize d) rel ∈ rel.map (score (tokenize d)) := by
          rcases foldr_max_attained (rel.map (score (tokenize d))) with h0 | hmem
          · exact absurd (show listMax (tokenize d) rel = 0 from h0) (by omega)
          · exact hmem
        obtain ⟨r0, hr0mem, hr0⟩ := List.mem_map.mp hattained
        have hsome : (rel.find? (fun r => decide (score (tokenize d) r = listMax (tokenize d) rel))).isSome := by
          rw [List.find?_isSome]
          exact ⟨r0, hr0mem, by simp [hr0]⟩
        obtain ⟨b, hb⟩ := Option.isSome_iff_exists.mp hsome
        rw [hb] at h
        exact Or.inr ⟨b, h.1.symm, by omega⟩
    · rw [if_neg hlen] at h
      simp [Pure.pure, Except.pure] at h
      exact Or.inl ⟨h.1.symm, h.2.symm⟩

/-- C2: an emitted item's rate is non-null iff a catalog candidate matched
its description and unit with positive score or the advisor returned a
numeric suggestion for them; otherwise rate and total are both null,
`isAiSuggestion` is false, and the source is "Manual". -/
theorem C2_rate_provenance (wb : Except Unit (List Row)) (ratesData : List RateRecord)
    (adv : AdvisorOracle) (it : PricedItem)
    (hit : it ∈ (parseAndMatchBOQ wb ratesData adv).1) :
    (it.rate.isSome ↔
      ((∃ b s, findBestMatch ratesData it.description it.unit = .ok (some b, s) ∧ 0 < s)
        ∨ (∃ q, adv it.description it.unit = some q)))
    ∧ (it.rate = none →
        it.total = none ∧ it.isAiSuggestion = false ∧ it.source = "Manual") := by
  obtain ⟨row, hpr⟩ := parseAndMatchBOQ_mem wb ratesData adv it hit
  obtain ⟨q, res, hq, hfb, hit_eq⟩ := processRow_ok_some ratesData adv row it hpr
  obtain ⟨bm, hi⟩ := res
  have hfields := priceRow_fields adv (jsTrim (cellStr (cell row 0)))
    (jsTrim (cellStr (cell row 1))) q (toLowerCase (jsTrim (cellStr (cell row 3)))) (bm, hi)
  have hdesc : it.description = jsTrim (cellStr (cell row 1)) := by rw [hit_eq]; exact hfields.1
  have hunit : it.unit = toLowerCase (jsTrim (cellStr (cell row 3))) := by
    rw [hit_eq]; exact hfields.2
  rw [hdesc, hunit]
  rcases findBestMatch_cases ratesData _ _ bm hi hfb with ⟨hbm, hhi⟩ | ⟨b, hbm, hhi⟩
  · subst hbm; subst hhi
    cases hadv : adv (jsTrim (cellStr (cell row 1))) (toLowerCase (jsTrim (cellStr (cell row 3)))) with
    | none =>
      rw [hit_eq]
      simp only [priceRow, hadv]
      constructor
      · constructor
        · intro hcon
          simp at hcon
        · rintro (⟨b, s, hfb2, _⟩ | ⟨q2, hadv2⟩)
          · exact absurd (hfb.symm.trans hfb2) (by simp)
          · exact absurd hadv2 (by simp)
      · intro _
        refine ⟨?_, ?_, ?_⟩ <;> simp
    | some r =>
      rw [hit_eq]
      simp only [priceRow, hadv]
      constructor
      · constructor
        · intro _
          exact Or.inr ⟨r, rfl⟩
        · intro _
          simp
      · intro hcon
        simp at hcon
  · subst hbm
    rw [hit_eq]
    simp only [priceRow, if_pos hhi]
    constructor
    · constructor
      · intro _
        exact Or.inl ⟨b, hi, hfb, hhi⟩
      · intro _
        simp
    · intro hcon
      simp at hcon

/-- Concrete instantiation of `C2_rate_provenance`: a row priced from the
Scenario A catalog entry. -/
theorem C2_witness :
    (priceRow (fun _ _ => none) "1" "Brick Masonry Walls" 850 "m2"
        (some ⟨"Brickwork", some "m2", (91:ℚ)/2, "brick wall masonry"⟩, 2))
      ∈ (parseAndMatchBOQ
          (.ok [[], [some "1", some "Brick Masonry Walls", some "850", some "m2"]])
          [⟨"Brickwork", some "m2", (91:ℚ)/2, "brick wall masonry"⟩]
          (fun _ _ => none)).1
    ∧ ((priceRow (fun _ _ => none) "1" "Brick Masonry Walls" 850 "m2"
          (some ⟨"Brickwork", some "m2", (91:ℚ)/2, "brick wall masonry"⟩, 2)).rate.isSome ↔
        ((∃ b s, findBestMatch [⟨"Brickwork", some "m2", (91:ℚ)/2, "brick wall masonry"⟩]
            (priceRow (fun _ _ => none) "1" "Brick Masonry Walls" 850 "m2"
              (some ⟨"Brickwork", some "m2", (91:ℚ)/2, "brick wall masonry"⟩, 2)).description
            (priceRow (fun _ _ => none) "1" "Brick Masonry Walls" 850 "m2"
              (some ⟨"Brickwork", some "m2", (91:ℚ)/2, "brick wall masonry"⟩, 2)).unit
            = .ok (some b, s) ∧ 0 < s)
          ∨ (∃ q2, (fun (_ _ : String) => (none : Option ℚ))
              (priceRow (fun _ _ => none) "1" "Brick Masonry Walls" 850 "m2"
                (some ⟨"Brickwork", some "m2", (91:ℚ)/2, "brick wall masonry"⟩, 2)).description
              (priceRow (fun _ _ => none) "1" "Brick Masonry Walls" 850 "m2"
                (some ⟨"Brickwork", some "m2", (91:ℚ)/2, "brick wall masonry"⟩, 2)).unit = some q2)))
    := by
  have hmem : (priceRow (fun _ _ => none) "1" "Brick Masonry Walls" 850 "m2"
      (some ⟨"Brickwork", some "m2", (91:ℚ)/2, "brick wall masonry"⟩, 2))
      ∈ (parseAndMatchBOQ
          (.ok [[], [some "1", some "Brick Masonry Walls", some "850", some "m2"]])
          [⟨"Brickwork", some "m2", (91:ℚ)/2, "brick wall masonry"⟩]
          (fun _ _ => none)).1 := by
    simp +decide [parseAndMatchBOQ, boqLoop, processRow, priceRow, cell, cellStr,
      cellParseFloat, parseFloat, digitsToNat, jsTrim, trimChars, toLowerCase, findBestMatch,
      relevantRatesE, bestLoop, score, tokenize, stripPunct, splitWs, splitWsAux, dedupFirst,
      insertUniq, STOP_WORDS, List.dropWhile, List.takeWhile, Except.instMonad, Except.bind,
      Except.map, Except.pure, Bind.bind, Pure.pure]
  exact ⟨hmem,
    (C2_rate_provenance
      (.ok [[], [some "1", some "Brick Masonry Walls", some "850", some "m2"]])
      [⟨"Brickwork", some "m2", (91:ℚ)/2, "brick wall masonry"⟩]
      (fun _ _ => none) _ hmem).1⟩

/-! ## Row-filtering lemmas -/

/-- An invalid row (empty description, unparsable quantity, or empty unit)
is dropped before the matcher runs, with no error and no diagnostic. -/
theorem processRow_invalid (ratesData : List RateRecord) (adv : AdvisorOracle) (row : Row)
    (h : rowValid row = false) :
    processRow ratesData adv row = .ok none := by
  unfold processRow
  cases hq : cellParseFloat (cell row 2) with
  | none => rfl
  | some q =>
    have hcond : jsTrim (cellStr (cell row 1)) = ""
        ∨ toLowerCase (jsTrim (cellStr (cell row 3))) = "" := by
      unfold rowValid at h
      rw [hq] at h
      by_cases h1 : jsTrim (cellStr (cell row 1)) = ""
      · exact Or.inl h1
      · by_cases h2 : toLowerCase (jsTrim (cellStr (cell row 3))) = ""
        · exact Or.inr h2
        · exfalso
          simp [h1, h2] at h
    dsimp only
    rw [if_pos hcond]

/-- On a catalog without null units the matcher never throws. -/
theorem findBestMatch_ok (ratesData : List RateRecord) (d u : String)
    (h : ∀ r ∈ ratesData, r.unit.isSome) :
    ∃ res, findBestMatch ratesData d u = .ok res := by
  unfold findBestMatch
  rw [relevantRatesE_eq u ratesData h]
  simp only [Bind.bind, Except.bind]
  by_cases hlen : (ratesData.filter (fun r => (r.unit.map toLowerCase) = some u)).length > 0
  · rw [if_pos hlen]; exact ⟨_, rfl⟩
  · rw [if_neg hlen]; exact ⟨_, rfl⟩

/-- On a catalog without null units a valid row is processed into exactly
the item `itemOfRow` computes. -/
theorem processRow_valid (ratesData : List RateRecord) (adv : AdvisorOracle) (row : Row)
    (hval : rowValid row = true) (h : ∀ r ∈ ratesData, r.unit.isSome) :
    processRow ratesData adv row = .ok (some (itemOfRow ratesData adv row)) := by
  unfold rowValid at hval
  simp only [Bool.and_eq_true, Bool.not_eq_true', decide_eq_false_iff_not] at hval
  obtain ⟨⟨hdesc, hq⟩, hunit⟩ := hval
  obtain ⟨q, hq2⟩ := Option.isSome_iff_exists.mp hq
  obtain ⟨res, hres⟩ := findBestMatch_ok ratesData (jsTrim (cellStr (cell row 1)))
    (toLowerCase (jsTrim (cellStr (cell row 3)))) h
  have hpr : processRow ratesData adv row
      = .ok (some (priceRow adv (jsTrim (cellStr (cell row 0))) (jsTrim (cellStr (cell row 1)))
          q (toLowerCase (jsTrim (cellStr (cell row 3)))) res)) := by
    unfold processRow
    rw [hq2]
    dsimp only
    rw [if_neg (by simp [hdesc, hunit]), hres]
    rfl
  rw [hpr]
  unfold itemOfRow
  rw [hpr]

/-- On a catalog without null units the loop succeeds and produces in
order exactly one item per valid row. -/
theorem boqLoop_items (ratesData : List RateRecord) (adv : AdvisorOracle)
    (h : ∀ r ∈ ratesData, r.unit.isSome) :
    ∀ rows : List Row, ∃ t, boqLoop ratesData adv rows ([], 0)
      = .ok ((rows.filter rowValid).map (itemOfRow ratesData adv), t) := by
  intro rows
  induction rows with
  | nil => exact ⟨0, by simp [boqLoop]⟩
  | cons row rows ih =>
    obtain ⟨t, ht⟩ := ih
    cases hval : rowValid row with
    | false =>
      refine ⟨t, ?_⟩
      have hpr := processRow_invalid ratesData adv row hval
      simp only [boqLoop, hpr, Bind.bind, Except.bind]
      rw [List.filter_cons, hval]
      simpa using ht
    | true =>
      have hpr := processRow_valid ratesData adv row hval h
      refine ⟨(itemOfRow ratesData adv row).total.getD 0 + t, ?_⟩
      simp only [boqLoop, hpr, Bind.bind, Except.bind, List.nil_append]
      rw [boqLoop_append, ht]
      rw [List.filter_cons, hval]
      simp [Except.map]

/-- C4 (amended): row 0 of the sheet is skipped as a header regardless of
its content, and each subsequent row yields exactly one `PricedItem`, in
order, if and only if its trimmed description is non-empty, its
quantity cell parses as a number (the sign is not checked: negative
quantities are accepted, which is where the original claim fails), and
its trimmed unit is non-empty; rows failing this are silently dropped,
with no per-row diagnostic in the result type. -/
theorem C4_row_filter_amended (ratesData : List RateRecord) (adv : AdvisorOracle)
    (hdr : Row) (rows : List Row) (h : ∀ r ∈ ratesData, r.unit.isSome) :
    (parseAndMatchBOQ (.ok (hdr :: rows)) ratesData adv).1
        = (rows.filter rowValid).map (itemOfRow ratesData adv)
    ∧ ∀ hdr2 : Row, parseAndMatchBOQ (.ok (hdr2 :: rows)) ratesData adv
        = parseAndMatchBOQ (.ok (hdr :: rows)) ratesData adv := by
  constructor
  · obtain ⟨t, ht⟩ := boqLoop_items ratesData adv h rows
    rw [parseAndMatchBOQ_ok]
    have hdrop : (hdr :: rows).drop 1 = rows := rfl
    rw [hdrop, ht]
  · intro hdr2
    rfl

/-- Concrete instantiation of `C4_row_filter_amended` on the empty catalog
and a one-row sheet. -/
theorem C4_witness :
    (∀ r ∈ ([] : List RateRecord), r.unit.isSome)
    ∧ ((parseAndMatchBOQ (.ok [[], [some "1", some "wall", some "5", some "m"]])
          [] (fun _ _ => none)).1
        = (([[some "1", some "wall", some "5", some "m"]] : List Row).filter rowValid).map
            (itemOfRow [] (fun _ _ => none))
      ∧ ∀ hdr2 : Row, parseAndMatchBOQ (.ok (hdr2 :: [[some "1", some "wall", some "5", some "m"]]))
            [] (fun _ _ => none)
          = parseAndMatchBOQ (.ok ([] :: [[some "1", some "wall", some "5", some "m"]]))
            [] (fun _ _ => none)) :=
  ⟨by simp,
   C4_row_filter_amended [] (fun _ _ => none) [] [[some "1", some "wall", some "5", some "m"]]
     (by simp)⟩

/-- C4 (counterexample): a data row whose quantity cell is the negative
numeral "-5" — not a positive-or-zero number — still yields a
`PricedItem` (with quantity −5), so the claimed "positive-or-zero"
precondition is not enforced by the code. -/
theorem C4_counterexample :
    ((parseAndMatchBOQ (.ok [[], [some "1", some "wall", some "-5", some "m"]])
        [] (fun _ _ => none)).1.map (fun it => it.quantity)) = [(-5 : ℚ)]
    ∧ ((-5 : ℚ) < 0) := by
  constructor
  · simp +decide [parseAndMatchBOQ, boqLoop, processRow, priceRow, cell, cellStr,
      cellParseFloat, parseFloat, digitsToNat, jsTrim, trimChars, toLowerCase, findBestMatch,
      relevantRatesE, bestLoop, score, tokenize, stripPunct, splitWs, splitWsAux, dedupFirst,
      insertUniq, STOP_WORDS, List.dropWhile, List.takeWhile, Except.instMonad, Except.bind,
      Except.map, Except.pure, Bind.bind, Pure.pure]
  · norm_num

/-- C8: a wholly unparsable workbook (the `xlsx` parse throws) resolves to
an empty item list and a zero project total instead of an error. -/
theorem C8_unparsable_empty_result (ratesData : List RateRecord) (adv : AdvisorOracle) :
    parseAndMatchBOQ (.error ()) ratesData adv = ([], 0) := rfl

/-- C9: `parseAndMatchBOQ` never rejects: every run either completes and
returns the run's items and total, or — whatever point of the run threw
(a parse failure, or e.g. a null catalog `unit` making
`rate.unit.toLowerCase()` throw mid-loop) — the catch-all returns the
empty item list with total 0, discarding every row already processed. -/
theorem C9_never_rejects (wb : Except Unit (List Row)) (ratesData : List RateRecord)
    (adv : AdvisorOracle) :
    (∃ r, boqRun wb ratesData adv = .ok r ∧ parseAndMatchBOQ wb ratesData adv = r)
    ∨ (boqRun wb ratesData adv = .error ()
        ∧ parseAndMatchBOQ wb ratesData adv = ([], 0)) := by
  have hdef : parseAndMatchBOQ wb ratesData adv
      = (match boqRun wb ratesData adv with
         | .ok r => r
         | .error _ => ([], 0)) := rfl
  cases hrun : boqRun wb ratesData adv with
  | ok r =>
    left
    exact ⟨r, rfl, by rw [hdef, hrun]⟩
  | error e =>
    right
    cases e
    exact ⟨rfl, by rw [hdef, hrun]⟩

/-! ## Rate-limiter schedule lemmas -/

/-- The schedule has one execution record per enqueued task. -/
theorem runQueue_length (c : ℕ) : ∀ (ts : List QueuedTask) (now : ℕ),
    (runQueue c now ts).length = ts.length := by
  intro ts
  induction ts with
  | nil => intro now; rfl
  | cons t ts ih => intro now; simp [runQueue, ih]

/-- The i-th execution record: start at the closed-form start time, settle
after the task's own duration, resolve with the task's own outcome. -/
theorem runQueue_getD (c : ℕ) : ∀ (ts : List QueuedTask) (now i : ℕ), i < ts.length →
    (runQueue c now ts).getD i (0, 0, false)
      = (schedStart c now ts i,
         schedStart c now ts i + (ts.getD i ⟨0, true⟩).dur,
         (ts.getD i ⟨0, true⟩).ok) := by
  intro ts
  induction ts with
  | nil =>
    intro now i hi
    simp at hi
  | cons t ts ih =>
    intro now i hi
    cases i with
    | zero =>
      simp [runQueue, schedStart]
    | succ i =>
      have hi2 : i < ts.length := by simpa using hi
      have hstep : schedStart c now (t :: ts) (i + 1)
          = schedStart c (now + t.dur + c) ts i := by
        simp [schedStart, List.take_succ_cons]
        omega
      simp only [runQueue, List.getD_cons_succ]
      rw [ih (now + t.dur + c) i hi2, hstep]

/-- One cooldown-and-duration step between consecutive start times. -/
theorem schedStart_succ (c now : ℕ) (ts : List QueuedTask) (i : ℕ) (hi : i < ts.length) :
    schedStart c now ts (i + 1)
      = schedStart c now ts i + (ts.getD i ⟨0, true⟩).dur + c := by
  unfold schedStart
  rw [List.take_succ]
  have hget : ts[i]? = some ts[i] := List.getElem?_eq_getElem hi
  have hgetD : ts.getD i ⟨0, true⟩ = ts[i] := by
    unfold List.getD
    rw [List.get?_eq_getElem?, hget]
    rfl
  rw [hget, hgetD]
  simp only [Option.toList_some, List.map_append, List.sum_append, List.map_cons,
    List.map_nil, List.sum_cons, List.sum_nil]
  omega

/-- C5: for every sequence of tasks enqueued on the shared limiter
(cooldown 4500 ms), tasks execute one at a time in FIFO order: the
(i+1)-st task starts exactly one cooldown after the i-th settles, so
consecutive starts are at least 4500 ms apart and settle times are
strictly increasing (FIFO completion); each task settles after its own
duration with its own outcome, so one task's rejection neither stops
the queue (the schedule still has one record per task) nor affects any
other task's resolution. -/
theorem C5_rate_limiter_schedule (ts : List QueuedTask) (t0 i : ℕ)
    (hi : i + 1 < ts.length) :
    (runQueue aiLimiterDelayMs t0 ts).length = ts.length
    ∧ ((runQueue aiLimiterDelayMs t0 ts).getD (i + 1) (0, 0, false)).1
        = ((runQueue aiLimiterDelayMs t0 ts).getD i (0, 0, false)).2.1 + 4500
    ∧ ((runQueue aiLimiterDelayMs t0 ts).getD i (0, 0, false)).1 + 4500
        ≤ ((runQueue aiLimiterDelayMs t0 ts).getD (i + 1) (0, 0, false)).1
    ∧ ((runQueue aiLimiterDelayMs t0 ts).getD i (0, 0, false)).2.1
        < ((runQueue aiLimiterDelayMs t0 ts).getD (i + 1) (0, 0, false)).2.1
    ∧ ((runQueue aiLimiterDelayMs t0 ts).getD i (0, 0, false)).2.1
        = ((runQueue aiLimiterDelayMs t0 ts).getD i (0, 0, false)).1
            + (ts.getD i ⟨0, true⟩).dur
    ∧ ((runQueue aiLimiterDelayMs t0 ts).getD i (0, 0, false)).2.2
        = (ts.getD i ⟨0, true⟩).ok
    ∧ ((runQueue aiLimiterDelayMs t0 ts).getD (i + 1) (0, 0, false)).2.2
        = (ts.getD (i + 1) ⟨0, true⟩).ok := by
  have hi0 : i < ts.length := by omega
  have h1 := runQueue_getD aiLimiterDelayMs ts t0 i hi0
  have h2 := runQueue_getD aiLimiterDelayMs ts t0 (i + 1) hi
  have hstep := schedStart_succ aiLimiterDelayMs t0 ts i hi0
  have hc : aiLimiterDelayMs = 4500 := rfl
  refine ⟨runQueue_length aiLimiterDelayMs ts t0, ?_, ?_, ?_, ?_, ?_, ?_⟩
  · rw [h1, h2]
    simp only
    rw [hstep, hc]
  · rw [h1, h2]
    simp only
    rw [hstep, hc]
    omega
  · rw [h1, h2]
    simp only
    rw [hstep, hc]
    omega
  · rw [h1]
  · rw [h1]
  · rw [h2]

/-- Concrete instantiation of `C5_rate_limiter_schedule`: a resolving task
followed by a rejecting one. -/
theorem C5_witness :
    (0 + 1 < ([⟨1000, true⟩, ⟨2000, false⟩] : List QueuedTask).length)
    ∧ ((runQueue aiLimiterDelayMs 0 [⟨1000, true⟩, ⟨2000, false⟩]).length
          = ([⟨1000, true⟩, ⟨2000, false⟩] : List QueuedTask).length
        ∧ ((runQueue aiLimiterDelayMs 0 [⟨1000, true⟩, ⟨2000, false⟩]).getD 1 (0, 0, false)).1
            = ((runQueue aiLimiterDelayMs 0 [⟨1000, true⟩, ⟨2000, false⟩]).getD 0 (0, 0, false)).2.1 + 4500
        ∧ ((runQueue aiLimiterDelayMs 0 [⟨1000, true⟩, ⟨2000, false⟩]).getD 0 (0, 0, false)).1 + 4500
            ≤ ((runQueue aiLimiterDelayMs 0 [⟨1000, true⟩, ⟨2000, false⟩]).getD 1 (0, 0, false)).1
        ∧ ((runQueue aiLimiterDelayMs 0 [⟨1000, true⟩, ⟨2000, false⟩]).getD 0 (0, 0, false)).2.1
            < ((runQueue aiLimiterDelayMs 0 [⟨1000, true⟩, ⟨2000, false⟩]).getD 1 (0, 0, false)).2.1
        ∧ ((runQueue aiLimiterDelayMs 0 [⟨1000, true⟩, ⟨2000, false⟩]).getD 0 (0, 0, false)).2.1
            = ((runQueue aiLimiterDelayMs 0 [⟨1000, true⟩, ⟨2000, false⟩]).getD 0 (0, 0, false)).1
                + (([⟨1000, true⟩, ⟨2000, false⟩] : List QueuedTask).getD 0 ⟨0, true⟩).dur
        ∧ ((runQueue aiLimiterDelayMs 0 [⟨1000, true⟩, ⟨2000, false⟩]).getD 0 (0, 0, false)).2.2
            = (([⟨1000, true⟩, ⟨2000, false⟩] : List QueuedTask).getD 0 ⟨0, true⟩).ok
        ∧ ((runQueue aiLimiterDelayMs 0 [⟨1000, true⟩, ⟨2000, false⟩]).getD 1 (0, 0, false)).2.2
            = (([⟨1000, true⟩, ⟨2000, false⟩] : List QueuedTask).getD 1 ⟨0, true⟩).ok) :=
  ⟨by decide, C5_rate_limiter_schedule [⟨1000, true⟩, ⟨2000, false⟩] 0 0 (by decide)⟩

/-! ## Persistence lemmas -/

/-- The insert loop appends the batch in order when no insert fails. -/
theorem runInserts_ok (insertFails : ℕ → Bool) :
    ∀ (its : List PricedItem) (k : ℕ) (st : List StoredItem),
      (∀ j, j < its.length → insertFails (k + j) = false) →
      runInserts insertFails k its st = .ok (st ++ its.map toStored) := by
  intro its
  induction its with
  | nil => intro k st _; simp [runInserts]
  | cons it its ih =>
    intro k st h
    have h0 : insertFails k = false := by simpa using h 0 (by simp)
    simp only [runInserts, h0, Bool.false_eq_true, if_false]
    rw [ih (k + 1) (st ++ [toStored it]) (fun j hj => by
      have := h (j + 1) (by simpa using Nat.succ_lt_succ hj)
      simpa [Nat.add_assoc, Nat.add_comm 1 j] using this)]
    simp

/-- The insert loop throws when some insert of the batch fails. -/
theorem runInserts_error (insertFails : ℕ → Bool) :
    ∀ (its : List PricedItem) (k : ℕ) (st : List StoredItem),
      (∃ j, j < its.length ∧ insertFails (k + j) = true) →
      runInserts insertFails k its st = .error () := by
  intro its
  induction its with
  | nil =>
    intro k st h
    obtain ⟨j, hj, _⟩ := h
    simp at hj
  | cons it its ih =>
    intro k st h
    cases h0 : insertFails k with
    | true => simp [runInserts, h0]
    | false =>
      obtain ⟨j, hj, hfail⟩ := h
      cases j with
      | zero => rw [Nat.add_zero] at hfail; rw [h0] at hfail; cases hfail
      | succ j =>
        simp only [runInserts, h0, Bool.false_eq_true, if_false]
        exact ih (k + 1) (st ++ [toStored it])
          ⟨j, by simpa using hj, by
            have : k + 1 + j = k + (j + 1) := by omega
            rw [this]; exact hfail⟩

/-- C6: the upload-boq persistence step replaces the stored item set
atomically: when every insert succeeds, the `boq_items` store afterwards
holds exactly the current batch in spreadsheet order, projected onto
the persisted columns (no `isAiSuggestion` flag), no other stored state
changes, and the caller gets the priced items and total; when any
insert fails, the whole transaction rolls back — the database is left
exactly as before, including the previously stored items — and the run
is reported as a server error even though in-memory pricing succeeded. -/
theorem C6_persistence_transactional {α : Type} (db : Db α) (wb : Except Unit (List Row))
    (adv : AdvisorOracle) (insertFails : ℕ → Bool) :
    ((∀ j, j < (parseAndMatchBOQ wb db.rates adv).1.length → insertFails j = false) →
      uploadBoq db wb adv insertFails
        = ({ rates := db.rates,
             boq_items := (parseAndMatchBOQ wb db.rates adv).1.map toStored,
             other := db.other },
           .ok (parseAndMatchBOQ wb db.rates adv).1 (parseAndMatchBOQ wb db.rates adv).2))
    ∧ ((∃ j, j < (parseAndMatchBOQ wb db.rates adv).1.length ∧ insertFails j = true) →
      uploadBoq db wb adv insertFails = (db, .serverError)) := by
  constructor
  · intro hok
    unfold uploadBoq
    dsimp only
    by_cases hlen : (parseAndMatchBOQ wb db.rates adv).1.length > 0
    · rw [if_pos hlen]
      rw [runInserts_ok insertFails (parseAndMatchBOQ wb db.rates adv).1 0 []
        (fun j hj => by rw [Nat.zero_add]; exact hok j hj)]
      simp
    · rw [if_neg hlen]
      have hempty : (parseAndMatchBOQ wb db.rates adv).1 = [] :=
        List.length_eq_zero.mp (by omega)
      simp [hempty]
  · intro hfail
    unfold uploadBoq
    dsimp only
    obtain ⟨j, hj, hf⟩ := hfail
    rw [if_pos (by omega)]
    rw [runInserts_error insertFails (parseAndMatchBOQ wb db.rates adv).1 0 []
      ⟨j, hj, by simpa using hf⟩]

/-- Concrete instantiation of `C6_persistence_transactional`: all inserts
succeed, so the prior store is replaced by the batch. -/
theorem C6_witness :
    (∀ j, j < (parseAndMatchBOQ (.ok [[], [some "1", some "wall", some "5", some "m"]])
        (Db.rates ⟨[], [⟨"old", 1, "m", none, none⟩], ()⟩) (fun _ _ => none)).1.length →
        (fun _ : ℕ => false) j = false)
    ∧ (uploadBoq (⟨[], [⟨"old", 1, "m", none, none⟩], ()⟩ : Db Unit)
          (.ok [[], [some "1", some "wall", some "5", some "m"]])
          (fun _ _ => none) (fun _ => false)
        = ({ rates := Db.rates (⟨[], [⟨"old", 1, "m", none, none⟩], ()⟩ : Db Unit),
             boq_items := (parseAndMatchBOQ (.ok [[], [some "1", some "wall", some "5", some "m"]])
               (Db.rates (⟨[], [⟨"old", 1, "m", none, none⟩], ()⟩ : Db Unit)) (fun _ _ => none)).1.map toStored,
             other := Db.other (⟨[], [⟨"old", 1, "m", none, none⟩], ()⟩ : Db Unit) },
           .ok (parseAndMatchBOQ (.ok [[], [some "1", some "wall", some "5", some "m"]])
               (Db.rates (⟨[], [⟨"old", 1, "m", none, none⟩], ()⟩ : Db Unit)) (fun _ _ => none)).1
             (parseAndMatchBOQ (.ok [[], [some "1", some "wall", some "5", some "m"]])
               (Db.rates (⟨[], [⟨"old", 1, "m", none, none⟩], ()⟩ : Db Unit)) (fun _ _ => none)).2)) :=
  ⟨fun _ _ => rfl,
   (C6_persistence_transactional (⟨[], [⟨"old", 1, "m", none, none⟩], ()⟩ : Db Unit)
      (.ok [[], [some "1", some "wall", some "5", some "m"]])
      (fun _ _ => none) (fun _ => false)).1 (fun _ _ => rfl)⟩

/-- C10: when the computed batch is empty (unparsable file or no valid data
row), the handler still truncates `boq_items` inside the transaction and
commits: every previously stored item is erased, the caller receives a
successful response with an empty item list and total 0, and no stored
state other than `boq_items` changes. -/
theorem C10_empty_batch_truncates {α : Type} (db : Db α) (wb : Except Unit (List Row))
    (adv : AdvisorOracle) (insertFails : ℕ → Bool)
    (h : (parseAndMatchBOQ wb db.rates adv).1 = []) :
    uploadBoq db wb adv insertFails
      = ({ rates := db.rates, boq_items := [], other := db.other }, .ok [] 0) := by
  have htot : (parseAndMatchBOQ wb db.rates adv).2 = 0 := by
    rw [parse_total_eq_sum, h]
    simp [sumTotals]
  unfold uploadBoq
  dsimp only
  rw [h]
  simp [htot]

/-- Concrete instantiation of `C10_empty_batch_truncates`: an unparsable
file against a store holding one previously saved item, with an insert
oracle that would fail every insert (none are attempted). -/
theorem C10_witness :
    ((parseAndMatchBOQ (.error ())
        (Db.rates (⟨[], [⟨"old", 1, "m", none, none⟩], ()⟩ : Db Unit)) (fun _ _ => none)).1 = [])
    ∧ (uploadBoq (⟨[], [⟨"old", 1, "m", none, none⟩], ()⟩ : Db Unit) (.error ())
          (fun _ _ => none) (fun _ => true)
        = ({ rates := Db.rates (⟨[], [⟨"old", 1, "m", none, none⟩], ()⟩ : Db Unit),
             boq_items := [],
             other := Db.other (⟨[], [⟨"old", 1, "m", none, none⟩], ()⟩ : Db Unit) },
           .ok [] 0)) :=
  ⟨rfl,
   C10_empty_batch_truncates (⟨[], [⟨"old", 1, "m", none, none⟩], ()⟩ : Db Unit) (.error ())
     (fun _ _ => none) (fun _ => true) rfl⟩

/-! ## Advisor adapter theorem -/

/-- C7: the advisor adapter returns null immediately and makes no network
call when the API credential is absent (or empty, the other falsy
string); with a credential it issues exactly one call, and it returns a
suggestion `r` precisely when the reply arrived, its text after
stripping code fences parses as JSON, and the parsed value is an object
whose `rate` field is numeric with value `r`; every network failure,
missing reply text, parse failure, or non-numeric `rate` yields null.
The adapter is a total function: nothing is thrown past its boundary. -/
theorem C7_advisor_adapter (parseJson : String → Option Json)
    (geminiApiKey : Option String) (net : NetOutcome) :
    ((geminiApiKey = none ∨ geminiApiKey = some "") →
        getAiRateSuggestion parseJson geminiApiKey net = (false, none))
    ∧ (∀ key, geminiApiKey = some key → key ≠ "" →
        (getAiRateSuggestion parseJson geminiApiKey net).1 = true)
    ∧ (∀ r : ℚ, (getAiRateSuggestion parseJson geminiApiKey net).2 = some r ↔
        (∃ key, geminiApiKey = some key ∧ key ≠ ""
          ∧ ∃ raw, net = .success (some raw)
          ∧ ∃ j, parseJson (cleanFence raw) = some j ∧ jsGetRate j = some r)) := by
  refine ⟨?_, ?_, ?_⟩
  · rintro (hk | hk) <;> subst hk <;> simp [getAiRateSuggestion]
  · intro key hk hne
    subst hk
    simp [getAiRateSuggestion, hne]
  · intro r
    cases geminiApiKey with
    | none => simp [getAiRateSuggestion]
    | some key =>
      by_cases hne : key = ""
      · subst hne
        simp [getAiRateSuggestion]
      · cases net with
        | failure => simp [getAiRateSuggestion, hne]
        | success rawText =>
          cases rawText with
          | none => simp [getAiRateSuggestion, hne]
          | some raw =>
            cases hp : parseJson (cleanFence raw) with
            | none => simp [getAiRateSuggestion, hne, hp]
            | some j => simp [getAiRateSuggestion, hne, hp]

/-- Concrete instantiation of `C7_advisor_adapter` with a present
credential and a parseable numeric reply. -/
theorem C7_witness :
    (((some "key" : Option String) = none ∨ (some "key" : Option String) = some "") →
        getAiRateSuggestion (fun _ => some (.obj [("rate", Json.num 42)])) (some "key")
          (.success (some "reply")) = (false, none))
    ∧ (∀ key, (some "key" : Option String) = some key → key ≠ "" →
        (getAiRateSuggestion (fun _ => some (.obj [("rate", Json.num 42)])) (some "key")
          (.success (some "reply"))).1 = true)
    ∧ (∀ r : ℚ, (getAiRateSuggestion (fun _ => some (.obj [("rate", Json.num 42)])) (some "key")
          (.success (some "reply"))).2 = some r ↔
        (∃ key, (some "key" : Option String) = some key ∧ key ≠ ""
          ∧ ∃ raw, (NetOutcome.success (some "reply")) = .success (some raw)
          ∧ ∃ j, (fun _ : String => some (Json.obj [("rate", Json.num 42)])) (cleanFence raw) = some j
              ∧ jsGetRate j = some r)) :=
  C7_advisor_adapter (fun _ => some (.obj [("rate", Json.num 42)])) (some "key")
    (.success (some "reply"))

end BOQ
